import Mathlib

/-!
Verification of the structural summary pipeline of `generate_tests.py`
(test scaffold generator): the Python tree-based extractor
(`analyze_python_code`), the JavaScript pattern-based extractor
(`analyze_javascript_code`), the placeholder-argument heuristic of the two
stub generators, the report docstring excerpt, the test-file naming rule
(`get_test_filename`), and the error path of `main`.

Conventions of the embedding:
- Python source text that has already been parsed is modelled as a list of
  statement nodes (`Stmt`); a parse failure is modelled as the `.error` case
  of an `Except` value, mirroring the `SyntaxError` branch of the script.
- String constants appearing as a definition body's first statement carry the
  text that `ast.get_docstring` would return for them (indentation cleaning
  is not re-modelled).
- `ast.walk`'s breadth-first traversal is modelled by `walkList`.
- JavaScript source text is a `List Char`; the concrete regular expressions
  of the script are embedded as token sequences (`Pat`) with the same greedy
  semantics (each star/plus in those patterns is followed by a disjoint
  character class, so greedy matching without backtracking coincides with
  the regex semantics), and `re.finditer` as `finditer`.  Character classes
  are the ASCII reading of the patterns.
-/

/-- A Python statement node, as far as `analyze_python_code` inspects it:
function definitions, async function definitions, class definitions,
expression statements (carrying the string text when the expression is a
bare string constant, i.e. a docstring candidate), and any other statement
(carrying its nested statement blocks, flattened). -/
inductive Stmt where
  | functionDef (name : String) (lineno : Nat) (args : List String) (body : List Stmt)
  | asyncFunctionDef (name : String) (lineno : Nat) (args : List String) (body : List Stmt)
  | classDef (name : String) (lineno : Nat) (body : List Stmt)
  | exprStmt (strConst : Option String)
  | otherStmt (body : List Stmt)

/-- The child statement nodes of a node, as `ast.iter_child_nodes` yields
them (only statement children can contain further definitions). -/
def Stmt.children : Stmt → List Stmt
  | .functionDef _ _ _ b => b
  | .asyncFunctionDef _ _ _ b => b
  | .classDef _ _ b => b
  | .exprStmt _ => []
  | .otherStmt b => b

mutual

/-- Size of a statement tree (for termination of the breadth-first walk). -/
def Stmt.size : Stmt → Nat
  | .functionDef _ _ _ b => 1 + Stmt.sizeList b
  | .asyncFunctionDef _ _ _ b => 1 + Stmt.sizeList b
  | .classDef _ _ b => 1 + Stmt.sizeList b
  | .exprStmt _ => 1
  | .otherStmt b => 1 + Stmt.sizeList b

/-- Total size of a list of statement trees. -/
def Stmt.sizeList : List Stmt → Nat
  | [] => 0
  | s :: ss => Stmt.size s + Stmt.sizeList ss

end

/-- One queue round of `ast.walk`, with an explicit step budget: pop one
node per step, append its children at the back of the queue. The budget is
only there to make the recursion structural; `walkList` passes a budget
that is never exhausted (one step is spent per node, and the total size
counts one per node). -/
def walkListFuel : Nat → List Stmt → List Stmt
  | 0, _ => []
  | _, [] => []
  | fuel + 1, s :: rest => s :: walkListFuel fuel (rest ++ s.children)

/-- `ast.walk`: breadth-first traversal of the forest of statements.
Applied to a module body it yields every node of the module in BFS order
(the module node itself is never a definition, so it is omitted). -/
def walkList (q : List Stmt) : List Stmt :=
  walkListFuel (Stmt.sizeList q) q

mutual

/-- All nodes of a statement tree, in depth-first preorder. -/
def allNodes : Stmt → List Stmt
  | .functionDef n l a b => .functionDef n l a b :: allNodesList b
  | .asyncFunctionDef n l a b => .asyncFunctionDef n l a b :: allNodesList b
  | .classDef n l b => .classDef n l b :: allNodesList b
  | .exprStmt o => [.exprStmt o]
  | .otherStmt b => .otherStmt b :: allNodesList b

/-- All nodes of a forest of statement trees. -/
def allNodesList : List Stmt → List Stmt
  | [] => []
  | s :: ss => allNodes s ++ allNodesList ss

end

/-- `str.startswith`: prefix test on the character sequences (kept at the
list level so that the kernel can evaluate it). -/
def strStartsWith (s pre : String) : Bool :=
  pre.data.isPrefixOf s.data

/-- `str.lower` (ASCII reading): lower-case every character. -/
def strToLower (s : String) : String :=
  String.mk (s.data.map Char.toLower)

/-- `ast.get_docstring`: the docstring of a definition body is the text of
its first statement when that statement is a bare string constant. -/
def getDocstring : List Stmt → Option String
  | .exprStmt (some s) :: _ => some s
  | _ => none

/-- A Function Signature of the Code Model (one entry of a `functions` or
`methods` list): the dictionaries built by `analyze_python_code` and
`analyze_javascript_code` (the `"returns": None` field is constant and
omitted; the optional `"async"` key is the `isAsync` flag). -/
structure FuncInfo where
  name : String
  line : Nat
  args : List String
  docstring : Option String
  isAsync : Bool
deriving DecidableEq

/-- A Class Model entry of the Code Model. -/
structure ClassInfo where
  name : String
  line : Nat
  methods : List FuncInfo
  docstring : Option String
deriving DecidableEq

/-- The Code Model: root dictionary returned by the analyzers. -/
structure CodeModel where
  functions : List FuncInfo
  classes : List ClassInfo
  language : String
  filePath : String
deriving DecidableEq

/-- The `functions` branch of the `ast.walk` loop of `analyze_python_code`:
a (sync or async) function definition node whose name does not start with
`_` yields an entry, with every argument named `self` filtered out. -/
def fnEntry : Stmt → Option FuncInfo
  | .functionDef n l a b =>
    if ¬ strStartsWith n "_" then
      some { name := n, line := l, args := a.filter (fun x => x != "self"),
             docstring := getDocstring b, isAsync := false }
    else none
  | .asyncFunctionDef n l a b =>
    if ¬ strStartsWith n "_" then
      some { name := n, line := l, args := a.filter (fun x => x != "self"),
             docstring := getDocstring b, isAsync := true }
    else none
  | _ => none

/-- The method filter inside the `ClassDef` branch of `analyze_python_code`:
a direct body entry that is a (sync or async) function definition is kept
when `not item.name.startswith('_') or item.name.startswith('__')`. -/
def methodEntry : Stmt → Option FuncInfo
  | .functionDef n l a b =>
    if ¬ strStartsWith n "_" ∨ strStartsWith n "__" then
      some { name := n, line := l, args := a.filter (fun x => x != "self"),
             docstring := getDocstring b, isAsync := false }
    else none
  | .asyncFunctionDef n l a b =>
    if ¬ strStartsWith n "_" ∨ strStartsWith n "__" then
      some { name := n, line := l, args := a.filter (fun x => x != "self"),
             docstring := getDocstring b, isAsync := true }
    else none
  | _ => none

/-- The `ClassDef` branch of `analyze_python_code`: methods are taken from
the class's direct body entries only. -/
def clsEntry : Stmt → Option ClassInfo
  | .classDef n l b =>
    some { name := n, line := l, methods := b.filterMap methodEntry,
           docstring := getDocstring b }
  | _ => none

/-- `analyze_python_code` on an already-parsed module body: one pass of
`ast.walk` over the tree, collecting function entries and class entries. -/
def analyzePython (filePath : String) (body : List Stmt) : CodeModel :=
  let nodes := walkList body
  { functions := nodes.filterMap fnEntry
    classes := nodes.filterMap clsEntry
    language := "python"
    filePath := filePath }

/-- The line number of a definition node (`FunctionDef` or
`AsyncFunctionDef`), if it is one. In every real parse the definition
nodes of one source file sit on pairwise distinct lines: a `def` is a
compound statement, so two of them can never share a `lineno`. -/
def defLine : Stmt → Option Nat
  | .functionDef _ l _ _ => some l
  | .asyncFunctionDef _ l _ _ => some l
  | _ => none

/-- `analyze_python_code` including the parse step: a `SyntaxError` from
`ast.parse` is reported as the fixed error value, carrying no partial model
(no functions list and no classes list). -/
def analyzePythonChecked (filePath : String) (parse : Except String (List Stmt)) :
    Except String CodeModel :=
  match parse with
  | .error _ => .error "Syntax error in Python file"
  | .ok body => .ok (analyzePython filePath body)

/-- The text after the last `/` of a character sequence. -/
def afterLastSlash (cs : List Char) : List Char :=
  cs.foldl (fun acc c => if c = '/' then [] else acc ++ [c]) []

/-- `pathlib.Path(p).name`: the final path component. -/
def pathFileName (p : String) : String :=
  String.mk (afterLastSlash p.data)

/-- The index of the last `.` in a list of characters, if any. -/
def lastDotIdx (name : List Char) : Option Nat :=
  ((List.range name.length).filter (fun i => name.get? i = some '.')).getLast?

/-- `pathlib.Path(p).suffix`: the final extension with its dot, empty unless
the last dot of the file name is at an index `i` with `0 < i < len - 1`. -/
def pathSuffix (p : String) : String :=
  let name := pathFileName p
  match lastDotIdx name.data with
  | some i => if 0 < i ∧ i < name.length - 1 then String.mk (name.data.drop i) else ""
  | none => ""

/-- `pathlib.Path(p).stem`: the file name without its final extension. -/
def pathStem (p : String) : String :=
  let name := pathFileName p
  match lastDotIdx name.data with
  | some i => if 0 < i ∧ i < name.length - 1 then String.mk (name.data.take i) else name
  | none => name

/-- `get_test_filename`: the generated test file's name per language. -/
def get_test_filename (source_file : String) (language : String) : String :=
  let stem := pathStem source_file
  if language = "python" then "test_" ++ stem ++ ".py"
  else if language = "javascript" ∨ language = "typescript" then stem ++ ".test.js"
  else "test_" ++ stem ++ "." ++ pathSuffix source_file

/-- The claim's reading of the naming rule, for comparison with
`get_test_filename`: in the fallback branch the original extension (which
already carries its dot) is appended directly to `test_<stem>`. -/
def claimedTestFilename (source_file : String) (language : String) : String :=
  let stem := pathStem source_file
  if language = "python" then "test_" ++ stem ++ ".py"
  else if language = "javascript" ∨ language = "typescript" then stem ++ ".test.js"
  else "test_" ++ stem ++ pathSuffix source_file

/-- The placeholder-argument heuristic of `generate_python_test_content`:
an exact, case-insensitive membership test of the parameter name against
three fixed keyword lists, defaulting to a generic mock string. -/
def mockArgValuePy (arg : String) : String :=
  if strToLower arg ∈ ["name", "title", "text", "str"] then "'test_" ++ arg ++ "'"
  else if strToLower arg ∈ ["num", "count", "size", "int"] then "1"
  else if strToLower arg ∈ ["flag", "enabled", "bool"] then "True"
  else "'mock_" ++ arg ++ "'"

/-- The placeholder-argument heuristic of `generate_javascript_test_content`:
identical to the Python one except for the casing of the boolean literal. -/
def mockArgValueJs (arg : String) : String :=
  if strToLower arg ∈ ["name", "title", "text", "str"] then "'test_" ++ arg ++ "'"
  else if strToLower arg ∈ ["num", "count", "size", "int"] then "1"
  else if strToLower arg ∈ ["flag", "enabled", "bool"] then "true"
  else "'mock_" ++ arg ++ "'"

/-- Whether `k` occurs as a contiguous substring of `s`. -/
def substrB (k s : List Char) : Bool :=
  (List.range (s.length + 1)).any (fun i => k.isPrefixOf (s.drop i))

/-- The claim's reading of the Python heuristic: classification by
case-insensitive substring membership against the keyword buckets. -/
def claimedMockArgValuePy (arg : String) : String :=
  if ["name", "title", "text", "str"].any (fun k => substrB k.data (strToLower arg).data) then
    "'test_" ++ arg ++ "'"
  else if ["num", "count", "size", "int"].any (fun k => substrB k.data (strToLower arg).data) then
    "1"
  else if ["flag", "enabled", "bool"].any (fun k => substrB k.data (strToLower arg).data) then
    "True"
  else "'mock_" ++ arg ++ "'"

/-- The classification shared by both stub-generation conventions: exact,
case-insensitive membership of the parameter name in one of three fixed
keyword lists, with a generic fallback bucket. -/
inductive ArgBucket where
  | nameLike
  | countLike
  | flagLike
  | generic
deriving DecidableEq

/-- The amended classification rule (exact membership, not substring). -/
def classifyArg (arg : String) : ArgBucket :=
  if strToLower arg ∈ ["name", "title", "text", "str"] then .nameLike
  else if strToLower arg ∈ ["num", "count", "size", "int"] then .countLike
  else if strToLower arg ∈ ["flag", "enabled", "bool"] then .flagLike
  else .generic

/-- Rendering of a bucket in the Python stub convention. -/
def renderBucketPy : ArgBucket → String → String
  | .nameLike, a => "'test_" ++ a ++ "'"
  | .countLike, _ => "1"
  | .flagLike, _ => "True"
  | .generic, a => "'mock_" ++ a ++ "'"

/-- Rendering of a bucket in the JavaScript stub convention. -/
def renderBucketJs : ArgBucket → String → String
  | .nameLike, a => "'test_" ++ a ++ "'"
  | .countLike, _ => "1"
  | .flagLike, _ => "true"
  | .generic, a => "'mock_" ++ a ++ "'"

/-- The per-item description line of the test report
(`generate_test_report`): the docstring is cut to its first 100 characters,
with an ellipsis marker appended exactly when the docstring is longer
than 100 characters. -/
def descriptionLine (doc : String) : String :=
  "  - Description: " ++ String.mk (doc.data.take 100)
    ++ (if doc.length > 100 then "..." else "")

/-- The file-writing behaviour of `main` on a Python input, given the parse
outcome: the list of file names written and the process exit code. On an
analysis error nothing is written and the process exits with status 1;
otherwise the test file and the fixed report file are written. -/
def runPythonPipeline (filePath : String) (parse : Except String (List Stmt)) :
    List String × Nat :=
  match analyzePythonChecked filePath parse with
  | .error _ => ([], 1)
  | .ok _ => ([get_test_filename filePath "python", "test-report.md"], 0)

/-- The character class `[a-zA-Z_$]` heading a JavaScript identifier. -/
def isNameStart (c : Char) : Bool :=
  c.isAlpha || c = '_' || c = '$'

/-- The character class `[a-zA-Z0-9_$]` continuing a JavaScript identifier. -/
def isNameChar (c : Char) : Bool :=
  c.isAlphanum || c = '_' || c = '$'

/-- The class `\s` (ASCII reading). -/
def isSpaceChar (c : Char) : Bool :=
  c = ' ' || c = '\t' || c = '\n' || c = '\r' || c = '\x0b' || c = '\x0c'

/-- The class `\w` (ASCII reading), used for `\b` and for `\w+`. -/
def isWordChar (c : Char) : Bool :=
  c.isAlphanum || c = '_'

/-- One token of the embedded regular expressions: a literal character, a
greedy star over a character class, or a greedy plus over one. In every
pattern of the script each star/plus is followed by a character outside its
class, so greedy matching without backtracking has the regex semantics. -/
inductive RTok where
  | lit (c : Char)
  | many (p : Char → Bool)
  | many1 (p : Char → Bool)

/-- The literal tokens of a keyword. -/
def lits (s : String) : List RTok :=
  s.data.map RTok.lit

/-- Match a token sequence at the head of `s`; returns the remaining
characters together with the number of characters consumed. -/
def matchToks : List RTok → List Char → Option (List Char × Nat)
  | [], s => some (s, 0)
  | .lit c :: ts, s =>
    match s with
    | [] => none
    | c' :: rest =>
      if c' = c then (matchToks ts rest).map (fun r => (r.1, r.2 + 1)) else none
  | .many p :: ts, s =>
    let taken := s.takeWhile p
    (matchToks ts (s.dropWhile p)).map (fun r => (r.1, r.2 + taken.length))
  | .many1 p :: ts, s =>
    let taken := s.takeWhile p
    if taken.isEmpty then none
    else (matchToks ts (s.dropWhile p)).map (fun r => (r.1, r.2 + taken.length))

/-- One of the script's capturing patterns: an optional leading `\b`, a
token prefix, then the single capture group
`([a-zA-Z_$][a-zA-Z0-9_$]*)`, then a token suffix. -/
structure Pat where
  wb : Bool
  pre : List RTok
  suf : List RTok

/-- Whether the character at index `i` (if any) is a word character. -/
def wordAt (content : List Char) (i : Nat) : Bool :=
  match content.get? i with
  | some c => isWordChar c
  | none => false

/-- `\b`: a word boundary at index `i` of `content`. -/
def atWordBoundary (content : List Char) (i : Nat) : Bool :=
  (if i = 0 then false else wordAt content (i - 1)) != wordAt content i

/-- Try to match pattern `p` at index `i` of `content`; on success returns
the captured group and the end index of the match. -/
def matchPatAt (p : Pat) (content : List Char) (i : Nat) : Option (List Char × Nat) :=
  if p.wb && !(atWordBoundary content i) then none
  else
    match matchToks p.pre (content.drop i) with
    | none => none
    | some (s1, n1) =>
      match s1 with
      | [] => none
      | c :: s2 =>
        if isNameStart c then
          let grp := s2.takeWhile isNameChar
          match matchToks p.suf (s2.dropWhile isNameChar) with
          | none => none
          | some (_, n4) => some (c :: grp, i + n1 + 1 + grp.length + n4)
        else none

/-- `re.finditer`: successive leftmost non-overlapping matches, resuming at
each match's end. Yields `(start, group, end)` triples. The fuel argument
only bounds the recursion; it is large enough never to cut the scan short,
since every step advances the position by at least one. -/
def finditerFrom (p : Pat) (content : List Char) : Nat → Nat → List (Nat × List Char × Nat)
  | 0, _ => []
  | fuel + 1, i =>
    if content.length < i then []
    else
      match matchPatAt p content i with
      | some (g, e) => (i, g, e) :: finditerFrom p content fuel (max e (i + 1))
      | none => finditerFrom p content fuel (i + 1)

/-- All matches of `p` in `content`, in order. -/
def finditer (p : Pat) (content : List Char) : List (Nat × List Char × Nat) :=
  finditerFrom p content (content.length + 1) 0

/-- The eight `func_patterns` of `analyze_javascript_code`, in order. -/
def funcPatterns : List Pat :=
  [ { wb := false, pre := lits "function" ++ [.many1 isSpaceChar],
      suf := [.many isSpaceChar, .lit '(', .many (fun c => c != ')'), .lit ')'] },
    { wb := false, pre := lits "const" ++ [.many1 isSpaceChar],
      suf := [.many isSpaceChar, .lit '=', .many isSpaceChar] ++ lits "function"
        ++ [.many isSpaceChar, .lit '(', .many (fun c => c != ')'), .lit ')'] },
    { wb := false, pre := lits "const" ++ [.many1 isSpaceChar],
      suf := [.many isSpaceChar, .lit '=', .many isSpaceChar, .lit '(',
        .many (fun c => c != ')'), .lit ')', .many isSpaceChar, .lit '=', .lit '>'] },
    { wb := false, pre := lits "const" ++ [.many1 isSpaceChar],
      suf := [.many isSpaceChar, .lit '=', .many isSpaceChar, .many1 isWordChar,
        .many isSpaceChar, .lit '=', .lit '>'] },
    { wb := false, pre := lits "let" ++ [.many1 isSpaceChar],
      suf := [.many isSpaceChar, .lit '=', .many isSpaceChar] ++ lits "function"
        ++ [.many isSpaceChar, .lit '(', .many (fun c => c != ')'), .lit ')'] },
    { wb := false, pre := lits "let" ++ [.many1 isSpaceChar],
      suf := [.many isSpaceChar, .lit '=', .many isSpaceChar, .lit '(',
        .many (fun c => c != ')'), .lit ')', .many isSpaceChar, .lit '=', .lit '>'] },
    { wb := false, pre := lits "var" ++ [.many1 isSpaceChar],
      suf := [.many isSpaceChar, .lit '=', .many isSpaceChar] ++ lits "function"
        ++ [.many isSpaceChar, .lit '(', .many (fun c => c != ')'), .lit ')'] },
    { wb := false, pre := lits "var" ++ [.many1 isSpaceChar],
      suf := [.many isSpaceChar, .lit '=', .many isSpaceChar, .lit '(',
        .many (fun c => c != ')'), .lit ')', .many isSpaceChar, .lit '=', .lit '>'] } ]

/-- The `class_pattern` of `analyze_javascript_code`. -/
def classPat : Pat :=
  { wb := false, pre := lits "class" ++ [.many1 isSpaceChar], suf := [] }

/-- The method pattern used on a bounded class body:
the raw pattern of the `re.finditer` call inside the class loop. -/
def methodPat : Pat :=
  { wb := true, pre := [],
    suf := [.many isSpaceChar, .lit '(', .many (fun c => c != ')'), .lit ')',
      .many isSpaceChar, .lit '{'] }

/-- The deny-list of well-known globals dropped from the functions list. -/
def jsDenyList : List String :=
  ["require", "console", "Math", "Array", "Object", "String", "Number", "Date", "Promise"]

/-- `content[:pos].count('\n') + 1`: the 1-based line of a position. -/
def lineOfPos (content : List Char) (pos : Nat) : Nat :=
  ((content.take pos).filter (fun c => c = '\n')).length + 1

/-- The function entries contributed by one pattern: each match whose name
is not on the deny-list becomes an entry with an empty argument list and no
docstring. -/
def jsFuncsOfPattern (content : List Char) (p : Pat) : List FuncInfo :=
  (finditer p content).filterMap (fun m =>
    let funcName := String.mk m.2.1
    if funcName ∈ jsDenyList then none
    else some { name := funcName, line := lineOfPos content m.1, args := [],
                docstring := none, isAsync := false })

/-- The brace scan bounding a class body: walking the text after the class
match, the position of the `}` that first returns the running brace count
to zero (0 when the scan runs out without such a `}`), exactly as the
`for i, char in enumerate(class_content)` loop computes `class_end_pos`. -/
def braceScan : List Char → Int → Nat → Nat
  | [], _, _ => 0
  | c :: rest, depth, i =>
    if c = '{' then braceScan rest (depth + 1) (i + 1)
    else if c = '}' then
      if depth - 1 = 0 then i else braceScan rest (depth - 1) (i + 1)
    else braceScan rest depth (i + 1)

/-- One iteration of the class loop of `analyze_javascript_code`: bound the
class body by the brace scan starting at `class_content_start = match.end()`,
match the method pattern inside it, drop `constructor`, and compute each
method's line from the prefix of length
`match.start() + class_content_start + m_match.start()`. -/
def jsClassOfMatch (content : List Char) (m : Nat × List Char × Nat) : ClassInfo :=
  let start := m.1
  let className := String.mk m.2.1
  let classContentStart := m.2.2
  let classContent := content.drop classContentStart
  let classEndPos := braceScan classContent 0 0
  let classBody := classContent.take classEndPos
  { name := className
    line := lineOfPos content start
    methods := (finditer methodPat classBody).filterMap (fun mm =>
      let methodName := String.mk mm.2.1
      if methodName ∈ ["constructor"] then none
      else some { name := methodName,
                  line := lineOfPos content (start + classContentStart + mm.1),
                  args := [], docstring := none, isAsync := false })
    docstring := none }

/-- The class loop of `analyze_javascript_code`: one class entry per
`class_pattern` match. -/
def jsClasses (content : List Char) : List ClassInfo :=
  (finditer classPat content).map (jsClassOfMatch content)

/-- `analyze_javascript_code` on file contents. -/
def analyzeJavascript (filePath : String) (content : List Char) : CodeModel :=
  { functions := funcPatterns.flatMap (jsFuncsOfPattern content)
    classes := jsClasses content
    language := "javascript"
    filePath := filePath }

/-- Parsed body of the Python module `class C:\n    def m(self): pass`:
a single class whose only body entry is a public method. -/
def bodyC1ex : List Stmt :=
  [Stmt.classDef "C" 1 [Stmt.functionDef "m" 2 ["self"] []]]

/-- Parsed body of a class `Counter` with a public, a single-underscore and
a dunder method. -/
def classBodyC2ex : List Stmt :=
  [Stmt.functionDef "increment" 2 ["self"] [],
   Stmt.functionDef "_reset" 3 ["self"] [],
   Stmt.functionDef "__init__" 4 ["self"] []]

/-- Parsed body of a module with one public free function (whose parameter
list contains `self`) and one underscore-named free function. -/
def bodyC6ex : List Stmt :=
  [Stmt.functionDef "add" 1 ["self", "a", "b"] [],
   Stmt.functionDef "_hidden" 2 [] []]

/-- JavaScript source whose class starts away from position 0 and whose
single method `m` sits on line 3. -/
def jsC4src : String := "xxxxxxxxxx\nclass A\x7b\nm()\x7b\x7d\n\x7d"

/-- JavaScript source declaring one free function with one parameter. -/
def jsC7src : String := "function greet(name) \x7b\x7d"

/-- JavaScript source whose single method body contains an `if` block. -/
def jsC10src : String := "class A\x7bm()\x7bif(x)\x7b\x7d\x7d\x7d"

/-- A docstring of 101 characters (one over the report's budget). -/
def docLongC9 : String :=
  "abcdefghijabcdefghijabcdefghijabcdefghijabcdefghijabcdefghijabcdefghijabcdefghijabcdefghijabcdefghijZ"

/-- A docstring shorter than the report's budget. -/
def docShortC9 : String := "Adds two numbers."

theorem Stmt.sizeList_append (a b : List Stmt) :
    Stmt.sizeList (a ++ b) = Stmt.sizeList a + Stmt.sizeList b := by
  induction a with
  | nil => simp [Stmt.sizeList]
  | cons t ts ih => simp [Stmt.sizeList, ih, Nat.add_assoc]

theorem Stmt.sizeList_children_lt (s : Stmt) :
    Stmt.sizeList s.children < Stmt.size s := by
  cases s <;> simp [Stmt.children, Stmt.size, Stmt.sizeList]

theorem Stmt.size_pos (s : Stmt) : 1 ≤ Stmt.size s := by
  cases s <;> simp [Stmt.size]

theorem allNodes_eq (s : Stmt) : allNodes s = s :: allNodesList s.children := by
  cases s <;> rfl

theorem allNodesList_append (a b : List Stmt) :
    allNodesList (a ++ b) = allNodesList a ++ allNodesList b := by
  induction a with
  | nil => rfl
  | cons s ss ih => simp [allNodesList, ih]

theorem mem_allNodesList_of_mem {s : Stmt} : ∀ {q : List Stmt}, s ∈ q → s ∈ allNodesList q
  | t :: _, h => by
    rcases List.mem_cons.mp h with h | h
    · subst h
      rw [allNodesList, allNodes_eq]
      exact List.mem_append_left _ (List.mem_cons_self _ _)
    · rw [allNodesList]
      exact List.mem_append_right _ (mem_allNodesList_of_mem h)

theorem walkListFuel_perm :
    ∀ (fuel : Nat) (q : List Stmt), Stmt.sizeList q ≤ fuel →
      List.Perm (walkListFuel fuel q) (allNodesList q) := by
  intro fuel
  induction fuel with
  | zero =>
    intro q hq
    match q with
    | [] => exact List.Perm.refl _
    | s :: rest =>
      exfalso
      have h1 := Stmt.size_pos s
      have h2 : Stmt.sizeList (s :: rest) = Stmt.size s + Stmt.sizeList rest := rfl
      omega
  | succ fuel ih =>
    intro q hq
    match q with
    | [] => exact List.Perm.refl _
    | s :: rest =>
      have hle : Stmt.sizeList (rest ++ s.children) ≤ fuel := by
        rw [Stmt.sizeList_append]
        have h1 := Stmt.sizeList_children_lt s
        have h2 : Stmt.sizeList (s :: rest) = Stmt.size s + Stmt.sizeList rest := rfl
        omega
      have ihq := ih _ hle
      have hstep : walkListFuel (fuel + 1) (s :: rest)
          = s :: walkListFuel fuel (rest ++ s.children) := rfl
      rw [hstep]
      have step1 : List.Perm (s :: walkListFuel fuel (rest ++ s.children))
          (s :: (allNodesList rest ++ allNodesList s.children)) := by
        rw [← allNodesList_append]
        exact List.Perm.cons s ihq
      have step2 : List.Perm (s :: (allNodesList rest ++ allNodesList s.children))
          (s :: (allNodesList s.children ++ allNodesList rest)) :=
        List.Perm.cons s List.perm_append_comm
      have step3 : allNodesList (s :: rest)
          = s :: (allNodesList s.children ++ allNodesList rest) := by
        rw [allNodesList, allNodes_eq]
        rfl
      rw [step3]
      exact List.Perm.trans step1 step2

/-- The breadth-first walk enumerates exactly the nodes of the forest: it is
a permutation of the depth-first enumeration. -/
theorem walkList_perm (q : List Stmt) : List.Perm (walkList q) (allNodesList q) :=
  walkListFuel_perm _ q (Nat.le_refl _)

theorem countP_filterMap_le {α β : Type} (g : α → Option β) (p : β → Bool) (q : α → Bool)
    (h : ∀ a b, g a = some b → p b = true → q a = true) :
    ∀ L : List α, List.countP p (L.filterMap g) ≤ List.countP q L
  | [] => by simp
  | a :: L => by
    have ih := countP_filterMap_le g p q h L
    cases hg : g a with
    | none =>
      rw [List.filterMap_cons_none hg, List.countP_cons]
      split <;> omega
    | some b =>
      rw [List.filterMap_cons_some hg]
      by_cases hp : p b = true
      · have hq := h a b hg hp
        rw [List.countP_cons_of_pos _ _ hp, List.countP_cons_of_pos _ _ hq]
        omega
      · rw [List.countP_cons_of_neg _ _ hp, List.countP_cons]
        split <;> omega

theorem fnEntry_rule {s : Stmt} {e : FuncInfo} (h : fnEntry s = some e) :
    ¬ strStartsWith e.name "_" := by
  cases s with
  | functionDef n l a b =>
    simp only [fnEntry] at h
    by_cases hr : ¬ strStartsWith n "_"
    · rw [if_pos hr] at h
      injection h with h2
      rw [← h2]
      exact hr
    · rw [if_neg hr] at h
      cases h
  | asyncFunctionDef n l a b =>
    simp only [fnEntry] at h
    by_cases hr : ¬ strStartsWith n "_"
    · rw [if_pos hr] at h
      injection h with h2
      rw [← h2]
      exact hr
    · rw [if_neg hr] at h
      cases h
  | classDef n l b => cases h
  | exprStmt o => cases h
  | otherStmt b => cases h

theorem fnEntry_defLine {s : Stmt} {e : FuncInfo} (h : fnEntry s = some e) :
    defLine s = some e.line := by
  cases s with
  | functionDef n l a b =>
    simp only [fnEntry] at h
    by_cases hr : ¬ strStartsWith n "_"
    · rw [if_pos hr] at h
      injection h with h2
      rw [← h2]
      rfl
    · rw [if_neg hr] at h
      cases h
  | asyncFunctionDef n l a b =>
    simp only [fnEntry] at h
    by_cases hr : ¬ strStartsWith n "_"
    · rw [if_pos hr] at h
      injection h with h2
      rw [← h2]
      rfl
    · rw [if_neg hr] at h
      cases h
  | classDef n l b => cases h
  | exprStmt o => cases h
  | otherStmt b => cases h

theorem methodEntry_rule {s : Stmt} {e : FuncInfo} (h : methodEntry s = some e) :
    ¬ strStartsWith e.name "_" ∨ strStartsWith e.name "__" := by
  cases s with
  | functionDef n l a b =>
    simp only [methodEntry] at h
    by_cases hr : ¬ strStartsWith n "_" ∨ strStartsWith n "__"
    · rw [if_pos hr] at h
      injection h with h2
      rw [← h2]
      exact hr
    · rw [if_neg hr] at h
      cases h
  | asyncFunctionDef n l a b =>
    simp only [methodEntry] at h
    by_cases hr : ¬ strStartsWith n "_" ∨ strStartsWith n "__"
    · rw [if_pos hr] at h
      injection h with h2
      rw [← h2]
      exact hr
    · rw [if_neg hr] at h
      cases h
  | classDef n l b => cases h
  | exprStmt o => cases h
  | otherStmt b => cases h

/-- Claim C3, counterexample: the stub generators classify parameter names
by exact case-insensitive membership in the keyword lists, not by substring
membership: `username` (which contains the keyword `name`) gets the generic
mock value, while the claim's substring reading would put it in the
name-like bucket. -/
theorem claim_C3_counterexample :
    mockArgValuePy "username" = "'mock_username'"
    ∧ claimedMockArgValuePy "username" = "'test_username'"
    ∧ mockArgValuePy "username" ≠ claimedMockArgValuePy "username" := by
  refine ⟨by decide, by decide, by decide⟩

/-- Claim C3, amended: in both stub-generation conventions every parameter
name is classified by the one shared rule `classifyArg` — exact,
case-insensitive membership in the four buckets — and the two conventions
differ only in how a bucket is rendered (the boolean literal's casing). -/
theorem claim_C3_amended (arg : String) :
    mockArgValuePy arg = renderBucketPy (classifyArg arg) arg
    ∧ mockArgValueJs arg = renderBucketJs (classifyArg arg) arg := by
  refine ⟨?_, ?_⟩
  · unfold mockArgValuePy classifyArg
    split_ifs <;> rfl
  · unfold mockArgValueJs classifyArg
    split_ifs <;> rfl

/-- Claim C4 (code bug): on a source whose class does not start at position
0, the reported method line number is wrong. In `jsC4src` the method `m`'s
pattern match starts at absolute position 20, which lies on line 3, but the
analyzer reports line 4, because the line is computed from the prefix of
length `match.start() + class_content_start + m_match.start()` in which
`class_content_start` is already an absolute position, so the class match's
start is added twice. -/
theorem claim_C4_code_bug :
    (analyzeJavascript "app.js" jsC4src.data).classes
      = [{ name := "A", line := 2,
           methods := [{ name := "m", line := 4, args := [], docstring := none,
                         isAsync := false }],
           docstring := none }]
    ∧ lineOfPos jsC4src.data 20 = 3
    ∧ jsC4src.data.drop 20 = ['m', '(', ')', '{', '}', '\n', '}'] := by
  refine ⟨by decide, by decide, by decide⟩

/-- Claim C5: when parsing fails, the tree-based extractor returns the
fixed parse-error value carrying no partial model, and the pipeline writes
no file and exits with status 1. -/
theorem claim_C5 (filePath msg : String) :
    analyzePythonChecked filePath (Except.error msg)
      = Except.error "Syntax error in Python file"
    ∧ runPythonPipeline filePath (Except.error msg) = ([], 1) :=
  ⟨rfl, rfl⟩

/-- Claim C8, counterexample: in the fallback branch the test file name is
`test_<stem>.<suffix>` where the suffix already carries its leading dot, so
the generated name contains a double dot — it is not the stem with the
original extension appended, as the claim states. -/
theorem claim_C8_counterexample :
    get_test_filename "calc.cpp" "cpp" = "test_calc..cpp"
    ∧ claimedTestFilename "calc.cpp" "cpp" = "test_calc.cpp"
    ∧ get_test_filename "calc.cpp" "cpp" ≠ claimedTestFilename "calc.cpp" "cpp" := by
  refine ⟨by decide, by decide, by decide⟩

/-- Claim C8, amended: the Python convention yields `test_<stem>.py`, the
JavaScript and TypeScript conventions yield `<stem>.test.js`, and any other
language tag yields `test_<stem>.` followed by the original extension with
its own leading dot (hence a double dot whenever the extension is
non-empty). -/
theorem claim_C8_amended (p lang : String) :
    get_test_filename p "python" = "test_" ++ pathStem p ++ ".py"
    ∧ get_test_filename p "javascript" = pathStem p ++ ".test.js"
    ∧ get_test_filename p "typescript" = pathStem p ++ ".test.js"
    ∧ (lang ≠ "python" → lang ≠ "javascript" → lang ≠ "typescript" →
        get_test_filename p lang = "test_" ++ pathStem p ++ "." ++ pathSuffix p) := by
  refine ⟨rfl, rfl, rfl, ?_⟩
  intro h1 h2 h3
  unfold get_test_filename
  rw [if_neg h1, if_neg ?_]
  rintro (h | h)
  · exact h2 h
  · exact h3 h

/-- Claim C8, amended, witness at the concrete fallback input. -/
theorem claim_C8_amended_witness :
    get_test_filename "calc.cpp" "other"
      = "test_" ++ pathStem "calc.cpp" ++ "." ++ pathSuffix "calc.cpp" :=
  (claim_C8_amended "calc.cpp" "other").2.2.2 (by decide) (by decide) (by decide)

/-- Claim C9: the report's description line renders a docstring of at most
100 characters verbatim with no marker, and truncates a longer docstring to
its first 100 characters (a prefix of the docstring of length exactly 100)
followed by the ellipsis marker. -/
theorem claim_C9 (doc : String) :
    (doc.length ≤ 100 → descriptionLine doc = "  - Description: " ++ doc)
    ∧ (100 < doc.length →
        descriptionLine doc
          = "  - Description: " ++ String.mk (doc.data.take 100) ++ "..."
        ∧ (String.mk (doc.data.take 100)).length = 100
        ∧ doc.data.take 100 <+: doc.data) := by
  constructor
  · intro h
    unfold descriptionLine
    rw [if_neg (by omega)]
    have h1 : doc.data.take 100 = doc.data := List.take_of_length_le h
    rw [h1]
    cases doc with
    | mk data => simp
  · intro h
    refine ⟨?_, ?_, ?_⟩
    · unfold descriptionLine
      rw [if_pos h]
    · have h1 : (String.mk (doc.data.take 100)).length = (doc.data.take 100).length := rfl
      rw [h1, List.length_take]
      have h2 : doc.length = doc.data.length := rfl
      omega
    · exact ⟨doc.data.drop 100, List.take_append_drop _ _⟩

/-- Claim C9, witness: the long docstring (101 characters) is truncated
with the marker, the short one is rendered verbatim. -/
theorem claim_C9_witness :
    descriptionLine docLongC9
      = "  - Description: " ++ String.mk (docLongC9.data.take 100) ++ "..."
    ∧ descriptionLine docShortC9 = "  - Description: " ++ docShortC9 :=
  ⟨((claim_C9 docLongC9).2 (by decide)).1, (claim_C9 docShortC9).1 (by decide)⟩

/-- Claim C10: the method pattern over a bounded class body also matches
keyword-headed blocks inside method bodies: in `jsC10src` the class `A`'s
method list reports both the real method `m` and the `if` heading the block
inside `m`'s body. -/
theorem claim_C10 :
    (analyzeJavascript "app.js" jsC10src.data).classes
      = [{ name := "A", line := 1,
           methods := [{ name := "m", line := 1, args := [], docstring := none,
                         isAsync := false },
                       { name := "if", line := 1, args := [], docstring := none,
                         isAsync := false }],
           docstring := none }] := by
  decide

/-- Claim C1, counterexample: the functions list is not restricted to
module-level callables. On a module consisting of a single class with one
public method, the functions list contains an entry (the method), yet no
module-level statement produces it. -/
theorem claim_C1_counterexample :
    ¬ (∀ f ∈ (analyzePython "mod.py" bodyC1ex).functions,
        ∃ s ∈ bodyC1ex, fnEntry s = some f) := by
  decide

/-- Claim C1, amended: the functions list contains exactly the entries of
every function or async-function definition node anywhere in the parse
tree — including class methods and definitions nested inside other
statements — whose name does not start with an underscore. -/
theorem claim_C1_amended (filePath : String) (body : List Stmt) (f : FuncInfo) :
    f ∈ (analyzePython filePath body).functions
      ↔ ∃ s ∈ allNodesList body, fnEntry s = some f := by
  have hfun : (analyzePython filePath body).functions
      = (walkList body).filterMap fnEntry := rfl
  rw [hfun]
  constructor
  · intro hf
    rcases List.mem_filterMap.mp hf with ⟨s, hs, he⟩
    exact ⟨s, (walkList_perm body).mem_iff.mp hs, he⟩
  · rintro ⟨s, hs, he⟩
    exact List.mem_filterMap.mpr ⟨s, (walkList_perm body).mem_iff.mpr hs, he⟩

/-- Claim C2: a method defined directly in a class body is included in that
class's methods list exactly when its name does not begin with a single
leading underscore or begins with a double leading underscore. -/
theorem claim_C2 (cn : String) (cl : Nat) (cbody : List Stmt) (c : ClassInfo)
    (h : clsEntry (Stmt.classDef cn cl cbody) = some c)
    (n : String) (l : Nat) (a : List String) (b : List Stmt) (isA : Bool)
    (hmem : (if isA then Stmt.asyncFunctionDef n l a b
             else Stmt.functionDef n l a b) ∈ cbody) :
    ({ name := n, line := l, args := a.filter (fun x => x != "self"),
       docstring := getDocstring b, isAsync := isA } : FuncInfo) ∈ c.methods
      ↔ (¬ strStartsWith n "_" ∨ strStartsWith n "__") := by
  have hc : c = { name := cn, line := cl, methods := cbody.filterMap methodEntry,
                  docstring := getDocstring cbody } := by
    simp only [clsEntry] at h
    injection h with h2
    rw [h2]
  subst hc
  constructor
  · intro hin
    rcases List.mem_filterMap.mp hin with ⟨s, _, hentry⟩
    exact methodEntry_rule hentry
  · intro hr
    apply List.mem_filterMap.mpr
    refine ⟨(if isA then Stmt.asyncFunctionDef n l a b
             else Stmt.functionDef n l a b), hmem, ?_⟩
    cases isA with
    | true =>
      show methodEntry (Stmt.asyncFunctionDef n l a b) = _
      simp only [methodEntry]
      rw [if_pos hr]
    | false =>
      show methodEntry (Stmt.functionDef n l a b) = _
      simp only [methodEntry]
      rw [if_pos hr]

/-- Claim C2, witness at the concrete class body `classBodyC2ex`: the
dunder method `__init__` is included while the single-underscore method
`_reset` is excluded. -/
theorem claim_C2_witness :
    ({ name := "__init__", line := 4, args := [], docstring := none,
       isAsync := false } : FuncInfo) ∈ (classBodyC2ex.filterMap methodEntry)
    ∧ ({ name := "_reset", line := 3, args := [], docstring := none,
         isAsync := false } : FuncInfo) ∉ (classBodyC2ex.filterMap methodEntry) := by
  have hdunder := claim_C2 "Counter" 1 classBodyC2ex
    { name := "Counter", line := 1, methods := classBodyC2ex.filterMap methodEntry,
      docstring := getDocstring classBodyC2ex }
    rfl "__init__" 4 ["self"] [] false
    (List.Mem.tail _ (List.Mem.tail _ (List.Mem.head _)))
  have hpriv := claim_C2 "Counter" 1 classBodyC2ex
    { name := "Counter", line := 1, methods := classBodyC2ex.filterMap methodEntry,
      docstring := getDocstring classBodyC2ex }
    rfl "_reset" 3 ["self"] [] false
    (List.Mem.tail _ (List.Mem.head _))
  exact ⟨hdunder.mpr (by decide), fun hin => absurd (hpriv.mp hin) (by decide)⟩

/-- Claim C6: no entry of the functions list has an underscore-initial name
(so underscore-named and dunder-named free functions are excluded from it),
and every public free function definition contributes its entry, with
`self` filtered out of the recorded argument list; when the definition
nodes of the tree sit on pairwise distinct lines — which is the case for
every real parse, since two `def` statements can never share a `lineno` —
that entry occurs exactly once in the functions list. -/
theorem claim_C6 (filePath : String) (body : List Stmt) :
    (∀ f ∈ (analyzePython filePath body).functions, ¬ strStartsWith f.name "_")
    ∧ (∀ (n : String) (l : Nat) (a : List String) (b : List Stmt) (isA : Bool),
        (if isA then Stmt.asyncFunctionDef n l a b
         else Stmt.functionDef n l a b) ∈ body →
        ¬ strStartsWith n "_" →
        ({ name := n, line := l, args := a.filter (fun x => x != "self"),
           docstring := getDocstring b, isAsync := isA } : FuncInfo)
          ∈ (analyzePython filePath body).functions
        ∧ (List.countP (fun s => defLine s == some l) (allNodesList body) = 1 →
            List.countP
              (fun f => f == { name := n, line := l,
                               args := a.filter (fun x => x != "self"),
                               docstring := getDocstring b, isAsync := isA })
              (analyzePython filePath body).functions = 1)) := by
  have hfun : (analyzePython filePath body).functions
      = (walkList body).filterMap fnEntry := rfl
  constructor
  · intro f hf
    rw [hfun] at hf
    rcases List.mem_filterMap.mp hf with ⟨s, _, he⟩
    exact fnEntry_rule he
  · intro n l a b isA hmem hpub
    have hde : fnEntry (if isA then Stmt.asyncFunctionDef n l a b
        else Stmt.functionDef n l a b)
        = some { name := n, line := l, args := a.filter (fun x => x != "self"),
                 docstring := getDocstring b, isAsync := isA } := by
      cases isA with
      | true =>
        show fnEntry (Stmt.asyncFunctionDef n l a b) = _
        simp only [fnEntry]
        rw [if_pos hpub]
      | false =>
        show fnEntry (Stmt.functionDef n l a b) = _
        simp only [fnEntry]
        rw [if_pos hpub]
    have hmemfun : ({ name := n, line := l, args := a.filter (fun x => x != "self"),
                      docstring := getDocstring b, isAsync := isA } : FuncInfo)
        ∈ (analyzePython filePath body).functions := by
      rw [hfun]
      refine List.mem_filterMap.mpr ⟨_, ?_, hde⟩
      exact (walkList_perm body).mem_iff.mpr (mem_allNodesList_of_mem hmem)
    refine ⟨hmemfun, ?_⟩
    intro hcount
    have hcnt_eq : List.countP
        (fun f => f == { name := n, line := l,
                         args := a.filter (fun x => x != "self"),
                         docstring := getDocstring b, isAsync := isA })
        ((walkList body).filterMap fnEntry)
        = List.countP
          (fun f => f == { name := n, line := l,
                           args := a.filter (fun x => x != "self"),
                           docstring := getDocstring b, isAsync := isA })
          ((allNodesList body).filterMap fnEntry) :=
      List.Perm.countP_eq _ (List.Perm.filterMap fnEntry (walkList_perm body))
    have hle : List.countP
        (fun f => f == { name := n, line := l,
                         args := a.filter (fun x => x != "self"),
                         docstring := getDocstring b, isAsync := isA })
        ((allNodesList body).filterMap fnEntry)
        ≤ List.countP (fun s => defLine s == some l) (allNodesList body) := by
      apply countP_filterMap_le
      intro s e hse hpe
      have h1 : e = { name := n, line := l,
                      args := a.filter (fun x => x != "self"),
                      docstring := getDocstring b, isAsync := isA } := by
        have := hpe
        simpa using this
      have h2 := fnEntry_defLine hse
      rw [h1] at h2
      simp [h2]
    have hge : 0 < List.countP
        (fun f => f == { name := n, line := l,
                         args := a.filter (fun x => x != "self"),
                         docstring := getDocstring b, isAsync := isA })
        (analyzePython filePath body).functions := by
      exact List.countP_pos_iff.mpr ⟨_, hmemfun, by simp⟩
    rw [hfun]
    rw [hfun] at hge
    omega

/-- Claim C6, witness at the concrete module body `bodyC6ex`: the public
free function `add` appears exactly once, with the receiver name `self`
absent from its recorded arguments. -/
theorem claim_C6_witness :
    ({ name := "add", line := 1, args := ["a", "b"], docstring := none,
       isAsync := false } : FuncInfo)
      ∈ (analyzePython "mod.py" bodyC6ex).functions
    ∧ List.countP
        (fun f => f == { name := "add", line := 1, args := ["a", "b"],
                         docstring := none, isAsync := false })
        (analyzePython "mod.py" bodyC6ex).functions = 1 := by
  have h := (claim_C6 "mod.py" bodyC6ex).2 "add" 1 ["self", "a", "b"] [] false
    (List.Mem.head _) (by decide)
  exact ⟨h.1, h.2 (by decide)⟩

/-- Claim C7: in the pattern-matched (JavaScript) model every function
entry, every class and every method entry carries an empty argument list
and no docstring, regardless of the source text. -/
theorem claim_C7 (filePath : String) (content : List Char) :
    (∀ f ∈ (analyzeJavascript filePath content).functions,
      f.args = [] ∧ f.docstring = none)
    ∧ (∀ c ∈ (analyzeJavascript filePath content).classes,
        c.docstring = none ∧ ∀ m ∈ c.methods, m.args = [] ∧ m.docstring = none) := by
  constructor
  · intro f hf
    have hfun : (analyzeJavascript filePath content).functions
        = funcPatterns.flatMap (jsFuncsOfPattern content) := rfl
    rw [hfun] at hf
    rcases List.mem_flatMap.mp hf with ⟨p, _, hfp⟩
    simp only [jsFuncsOfPattern] at hfp
    rcases List.mem_filterMap.mp hfp with ⟨m, _, hval⟩
    by_cases hd : String.mk m.2.1 ∈ jsDenyList
    · rw [if_pos hd] at hval
      cases hval
    · rw [if_neg hd] at hval
      injection hval with h2
      rw [← h2]
      exact ⟨rfl, rfl⟩
  · intro c hc
    have hcls : (analyzeJavascript filePath content).classes
        = (finditer classPat content).map (jsClassOfMatch content) := rfl
    rw [hcls] at hc
    rcases List.mem_map.mp hc with ⟨m, _, hval⟩
    rw [← hval]
    refine ⟨rfl, ?_⟩
    intro mm hmm
    have hmeth : (jsClassOfMatch content m).methods
        = (finditer methodPat
            ((content.drop m.2.2).take (braceScan (content.drop m.2.2) 0 0))).filterMap
          (fun t =>
            if String.mk t.2.1 ∈ ["constructor"] then none
            else some { name := String.mk t.2.1,
                        line := lineOfPos content (m.1 + m.2.2 + t.1),
                        args := [], docstring := none, isAsync := false }) := rfl
    rw [hmeth] at hmm
    rcases List.mem_filterMap.mp hmm with ⟨t, _, hval2⟩
    by_cases hd : String.mk t.2.1 ∈ ["constructor"]
    · rw [if_pos hd] at hval2
      cases hval2
    · rw [if_neg hd] at hval2
      injection hval2 with h2
      rw [← h2]
      exact ⟨rfl, rfl⟩

/-- Claim C7, witness at the concrete source `jsC7src`: the detected
function `greet` has an empty argument list and no docstring although the
source declares a parameter. -/
theorem claim_C7_witness :
    ({ name := "greet", line := 1, args := [], docstring := none,
       isAsync := false } : FuncInfo).args = []
    ∧ ({ name := "greet", line := 1, args := [], docstring := none,
         isAsync := false } : FuncInfo).docstring = none :=
  (claim_C7 "app.js" jsC7src.data).1
    { name := "greet", line := 1, args := [], docstring := none, isAsync := false }
    (by decide)
